import Mathlib

/-!
# Verification of the uv-metrics metric recording/retrieval core

Shallow embedding of the uv-metrics repository's Reporter/Reader backends:

* `src/uv/sql/reporter.py` — relational backend (`SQLReporter`, `SQLReader`).
  The SQLAlchemy/SQLite store is embedded as a `List Metric` of rows in
  insertion order; `ORDER BY` is embedded as a stable insertion sort
  (`orderBy`), SQLAlchemy's query filters as `List.filter`, and
  `itertools.groupby` as the consecutive-run grouping `groupby`.
* `src/uv/reporter/store.py` — `MemoryReporter`, `LambdaReporter`.
* `src/uv/fs/reader.py` — `FSReader` over a PyFilesystem2 store, embedded as
  an association list from path to file content (a `List Char`);
  `bytes.splitlines` is embedded as `pySplitlines` and the external JSON
  codec as an explicit line decoder parameter.

Modules of the repository that the retained core calls but that are not part
of the retained source (`uv/reader/base.py`, `uv/reader/store.py`,
`uv/fs/util.py`, `uv/sql/util.py`, `uv/reporter/base.py`) are modelled from
the spec; each such definition carries a doc comment starting with
`Modelled from the spec:`.
-/

namespace UvMetrics

/-! ## Generic list machinery -/

/-- Insert `a` into `l` immediately before the first element `b` with
`le a b = true`.  The building block of `orderBy`. -/
def insertOrd (le : α → α → Bool) (a : α) : List α → List α
  | [] => [a]
  | b :: l => if le a b then a :: b :: l else b :: insertOrd le a l

/-- Stable insertion sort: the embedding of SQL `ORDER BY`.  Ties (elements
equivalent under `le`) keep their relative order in the input row stream. -/
def orderBy (le : α → α → Bool) : List α → List α
  | [] => []
  | a :: l => insertOrd le a (orderBy le l)

/-- Consecutive-run grouping: the embedding of Python's `itertools.groupby`.
A single linear pass that starts a new group exactly where the key of
adjacent elements changes. -/
def groupby [DecidableEq β] (key : α → β) : List α → List (β × List α)
  | [] => []
  | a :: l =>
    match groupby key l with
    | [] => [(key a, [a])]
    | (k, g) :: rest =>
      if key a = k then (key a, a :: g) :: rest else (key a, [a]) :: (k, g) :: rest

/-- Boolean list membership via decidable equality (the embedding of
Python's / SQL's `in`). -/
def elemB [DecidableEq β] (b : β) : List β → Bool
  | [] => false
  | x :: l => if b = x then true else elemB b l

/-- Association-list lookup (first binding wins): the embedding of reading a
Python `dict` built from distinct keys. -/
def alookup [DecidableEq β] (k : β) : List (β × γ) → Option γ
  | [] => none
  | (k', v) :: rest => if k = k' then some v else alookup k rest

/-- Embedding of Python `bytes.splitlines` for `\n`-delimited content:
splits at every newline and a single trailing newline produces no final
empty line (`"".splitlines() = []`, `"a\n".splitlines() = ["a"]`,
`"\n".splitlines() = [""]`). -/
def pySplitlines : List Char → List (List Char)
  | [] => []
  | c :: rest =>
    if c = '\n' then [] :: pySplitlines rest
    else
      match pySplitlines rest with
      | [] => [[c]]
      | l :: ls => (c :: l) :: ls

/-- Decode every line with `dec`, failing on the first malformed line: the
embedding of `[json.loads(s) for s in lines]`, where a bad line raises. -/
def decodeLines (dec : List Char → Except String α) : List (List Char) → Except String (List α)
  | [] => .ok []
  | s :: rest =>
    match dec s with
    | .error e => .error e
    | .ok v =>
      match decodeLines dec rest with
      | .error e => .error e
      | .ok vs => .ok (v :: vs)

/-! ## Data model -/

/-- A `(step, value)` series point, the record shape `{"step": _, "value": _}`
that the Readers return.  Metric values (`REAL` column / JSON scalars) are
embedded as integers. -/
structure SeriesPoint where
  step : Nat
  value : Int
deriving DecidableEq

/-- Embedding of the `experiment` table row (`id`, `params`); `params` is an
opaque JSON blob kept as a string. -/
structure Experiment where
  id : Nat
  params : String
deriving DecidableEq

/-- Embedding of a `metrics` table row.  The `id` primary key is implicit as
the row's position in the database list. -/
structure Metric where
  experiment_id : Nat
  run_id : Nat
  step : Nat
  tag : String
  value : Int
deriving DecidableEq

/-- The relational store: rows in insertion order. -/
abbrev DB := List Metric

/-- Embedding of a SQLAlchemy `Engine`: the URL plus whether the SQLite file
behind it exists. -/
structure Engine where
  url : String
  fileExists : Bool
deriving DecidableEq

/-- Modelled from the spec: `uv.sql.util.sqlite_file_exists` (module
`uv/sql/util.py` is not part of the retained source).  Per §4.4/§7 it reports
whether the engine's underlying storage file already exists. -/
def sqlite_file_exists (e : Engine) : Bool := e.fileExists

/-! ## Relational backend (`src/uv/sql/reporter.py`) -/

/-- The state held by a constructed `SQLReporter` (engine, experiment row,
run id).  The `sessionmaker` is part of the ambient state-passing. -/
structure SQLReporter where
  engine : Engine
  experiment : Experiment
  run_id : Nat
deriving DecidableEq

/-- `SQLReporter.__init__`: raises unless the engine's SQLite file exists. -/
def SQLReporter.init (engine : Engine) (experiment : Experiment) (run_id : Nat) :
    Except String SQLReporter :=
  if ¬ sqlite_file_exists engine then
    .error (engine.url ++ " doesn't exist! Create the database before creating a reporter.")
  else
    .ok ⟨engine, experiment, run_id⟩

/-- `SQLReporter._metric`: one `Metric` row stamped with this reporter's
experiment id and run id. -/
def SQLReporter.metricOf (r : SQLReporter) (step : Nat) (k : String) (v : Int) : Metric :=
  ⟨r.experiment.id, r.run_id, step, k, v⟩

/-- `SQLReporter.report_all`: builds one row per `(tag, value)` pair of the
batch and commits them in one session (appended to the row stream as a
unit).  The batch mapping is a `dict`, embedded as an association list in
insertion order. -/
def SQLReporter.report_all (r : SQLReporter) (step : Nat) (m : List (String × Int))
    (db : DB) : DB :=
  db ++ m.map (fun kv => r.metricOf step kv.1 kv.2)

/-- The state held by a constructed `SQLReader` (the `step_key` constructor
argument is resolved to a default and then discarded by the source, so it
has no field here). -/
structure SQLReader where
  engine : Engine
  experiment : Experiment
  run_id : Nat
deriving DecidableEq

/-- `SQLReader.__init__`: raises unless the SQLite file exists; defaults
`step_key` to `"step"` and then never stores it. -/
def SQLReader.init (engine : Engine) (experiment : Experiment) (run_id : Nat)
    (stepKeyArg : Option String) : Except String SQLReader :=
  if ¬ sqlite_file_exists engine then
    .error (engine.url ++ " doesn't exist! Create the database before creating a reader.")
  else
    let resolvedStepKey := stepKeyArg.getD "step"
    let _ := resolvedStepKey
    .ok ⟨engine, experiment, run_id⟩

/-- `SQLReporter.reader`: `SQLReader(self._engine, self._experiment,
self._run_id)`. -/
def SQLReporter.reader (r : SQLReporter) : Except String SQLReader :=
  SQLReader.init r.engine r.experiment r.run_id none

/-- The `filter_by(experiment_id=…, run_id=…)` scope predicate of a reader. -/
def SQLReader.inScope (rd : SQLReader) (r : Metric) : Bool :=
  decide (r.experiment_id = rd.experiment.id) && decide (r.run_id = rd.run_id)

/-- The row predicate of `SQLReader.read`: scope plus `tag = k`. -/
def SQLReader.readPred (rd : SQLReader) (k : String) (r : Metric) : Bool :=
  rd.inScope r && decide (r.tag = k)

/-- The row predicate of `SQLReader.read_all`: scope plus `tag ∈ ks`
(`Metric.tag.in_(ks)`). -/
def SQLReader.readAllPred (rd : SQLReader) (ks : List String) (r : Metric) : Bool :=
  rd.inScope r && elemB r.tag ks

/-- `ORDER BY Metric.step` (ascending). -/
def stepLe (a b : Metric) : Bool := decide (a.step ≤ b.step)

/-- Strict codepoint order on characters. -/
def charLtB (a b : Char) : Bool := decide (a.toNat < b.toNat)

/-- Lexicographic strict order on character lists. -/
def charListLtB : List Char → List Char → Bool
  | [], [] => false
  | [], _ :: _ => true
  | _ :: _, [] => false
  | a :: as, b :: bs =>
    if charLtB a b then true else if charLtB b a then false else charListLtB as bs

/-- Strict lexicographic order on strings: the embedding of SQLite's
byte-wise `TEXT` comparison used by `ORDER BY Metric.tag`. -/
def strLtB (s t : String) : Bool := charListLtB s.data t.data

/-- `ORDER BY Metric.tag, Metric.step` (ascending, tag first). -/
def lexLe (a b : Metric) : Bool :=
  strLtB a.tag b.tag || (decide (a.tag = b.tag) && decide (a.step ≤ b.step))

/-- The `{"step": step, "value": v}` record built from a row. -/
def toRec (r : Metric) : SeriesPoint := ⟨r.step, r.value⟩

/-- `SQLReader.keys`: `SELECT DISTINCT tag` over the scoped rows. -/
def SQLReader.keys (rd : SQLReader) (db : DB) : List String :=
  ((db.filter rd.inScope).map Metric.tag).dedup

/-- `SQLReader.read`: scoped rows with `tag = k`, `ORDER BY step`, each row
converted to a `{step, value}` record. -/
def SQLReader.read (rd : SQLReader) (k : String) (db : DB) : List SeriesPoint :=
  (orderBy stepLe (db.filter (rd.readPred k))).map toRec

/-- `SQLReader._values`: converts one group into the reader record shape. -/
def SQLReader.valuesOf (g : List Metric) : List SeriesPoint := g.map toRec

/-- `SQLReader.read_all`: scoped rows with `tag ∈ ks`, `ORDER BY tag, step`,
then one `itertools.groupby` pass over the sorted stream keyed by tag, each
group converted by `_values` into the result `dict`. -/
def SQLReader.read_all (rd : SQLReader) (ks : List String) (db : DB) :
    List (String × List SeriesPoint) :=
  (groupby Metric.tag (orderBy lexLe (db.filter (rd.readAllPred ks)))).map
    (fun g => (g.1, SQLReader.valuesOf g.2))

/-! ## Memory backend (`src/uv/reporter/store.py`) -/

/-- The backing store of a `MemoryReporter`: a mapping from metric key to the
append-only list of values reported for it (steps are not stored). -/
abbrev MemStore (α : Type) := List (String × List α)

/-- `dict.setdefault(k, []).append(v)`: append `v` to `k`'s list, creating
the singleton list when `k` is absent. -/
def setdefaultAppend [DecidableEq β] (st : List (β × List α)) (k : β) (v : α) :
    List (β × List α) :=
  match st with
  | [] => [(k, [v])]
  | (k', vs) :: rest =>
    if k = k' then (k', vs ++ [v]) :: rest else (k', vs) :: setdefaultAppend rest k v

/-- `MemoryReporter.report_all`: for each `(k, v)` of the batch, append `v`
to `k`'s list.  Note the `step` argument is ignored by the source. -/
def MemoryReporter.report_all (stepIgnored : Nat) (m : List (String × α))
    (st : MemStore α) : MemStore α :=
  let _ := stepIgnored
  m.foldl (fun acc kv => setdefaultAppend acc kv.1 kv.2) st

/-- Modelled from the spec: `uv.reader.store.MemoryReader.read` (module
`uv/reader/store.py` is not part of the retained source).  Per §4.2 the
paired Reader is a thin read-only view of the same backing mapping, so
reading a key yields its stored value list (empty when absent). -/
def MemoryReader.read [DecidableEq β] (st : List (β × List α)) (k : β) : List α :=
  (alookup k st).getD []

/-- The series points a memory read denotes under the spec's data model
(§3, §9): the step of each point is implicit, equal to its position in the
stored value list. -/
def memSeries (st : MemStore Int) (k : String) : List SeriesPoint :=
  (MemoryReader.read st k).enum.map (fun p => ⟨p.1, p.2⟩)

/-! ## File backend (`src/uv/fs/reader.py`) -/

/-- The PyFilesystem2 store: an association from path to file content. -/
abbrev FileStore := List (String × List Char)

/-- Modelled from the spec: `uv.fs.util.jsonl_path` (module `uv/fs/util.py`
is not part of the retained source).  Per §6 each tag's series lives in the
file `<tag>.jsonl`. -/
def jsonl_path (k : String) : String := k ++ ".jsonl"

/-- `FSReader.read`: open the key's `.jsonl` file, split its bytes into
lines and JSON-decode each line (`dec` embeds the external `json.loads`
codec); a missing file (`ResourceNotFound`) is recovered as `[]`, a
malformed line is a surfaced decode error. -/
def FSReader.read (dec : List Char → Except String α) (store : FileStore)
    (k : String) : Except String (List α) :=
  match alookup (jsonl_path k) store with
  | none => .ok []
  | some content => decodeLines dec (pySplitlines content)

/-- Append one encoded line plus a newline to the file at `path`, creating
the file when absent. -/
def appendLine (store : FileStore) (path : String) (line : List Char) : FileStore :=
  match store with
  | [] => [(path, line ++ ['\n'])]
  | (p, c) :: rest =>
    if path = p then (p, c ++ line ++ ['\n']) :: rest
    else (p, c) :: appendLine rest path line

/-- Modelled from the spec: the file-backed Reporter (§2: "A file-backed
Reporter is not shown in the retained core; if present it mirrors the
read-side contract in reverse"; §4.3/§6: one JSON record per line in write
order).  `report_all` appends, for each `(k, v)` of the batch, one encoded
`{step, value}` line to `k`'s `.jsonl` file; `enc` embeds the external JSON
encoder. -/
def FSReporter.report_all (enc : SeriesPoint → List Char) (step : Nat)
    (m : List (String × Int)) (store : FileStore) : FileStore :=
  m.foldl (fun acc kv => appendLine acc (jsonl_path kv.1) (enc ⟨step, kv.2⟩)) store

/-! ## Lambda reporter (`src/uv/reporter/store.py`) -/

/-- The state of a `LambdaReporter`: the optionally supplied `report`,
`report_all` and `close` callables (held abstractly; their observable
behavior is which one gets invoked with which arguments). -/
structure LambdaReporter (F G H : Type) where
  fnReport : Option F
  fnReportAll : Option G
  fnClose : Option H

/-- `LambdaReporter.__init__`: raises `ValueError` when neither write
function is supplied. -/
def LambdaReporter.init (report : Option F) (reportAll : Option G) (close : Option H) :
    Except String (LambdaReporter F G H) :=
  if report.isNone && reportAll.isNone then
    .error "Must supply one of `report` and `report_all` to `LambdaReporter`."
  else
    .ok ⟨report, reportAll, close⟩

/-- One invocation of a caller-supplied write function. -/
inductive LCall (α : Type) where
  | toReport (step : Nat) (k : String) (v : α)
  | toReportAll (step : Nat) (m : List (String × α))
deriving DecidableEq

/-- `LambdaReporter.report_all` as the sequence of underlying invocations it
performs: calls the supplied `report_all` function when present, otherwise
falls back to the base-class default.  Modelled from the spec for the
fallback: per §4.1 the default `report_all` delegates to `report` once per
entry of the batch (`uv/reporter/base.py` is not part of the retained
source).  The branch where neither function exists is unreachable for
constructed reporters (`LambdaReporter.init` rejects it). -/
def LambdaReporter.report_all (r : LambdaReporter F G H) (step : Nat)
    (m : List (String × α)) : List (LCall α) :=
  match r.fnReportAll with
  | some _ => [.toReportAll step m]
  | none =>
    match r.fnReport with
    | some _ => m.map (fun kv => .toReport step kv.1 kv.2)
    | none => []

/-- `LambdaReporter.report` as the sequence of underlying invocations it
performs: calls the supplied `report` function when present, otherwise the
base-class default delegates to `report_all` with the single-entry mapping
`{k: v}` (modelled from the spec §4.1, `uv/reporter/base.py` not retained),
which lands in the supplied `report_all` function. -/
def LambdaReporter.report (r : LambdaReporter F G H) (step : Nat) (k : String)
    (v : α) : List (LCall α) :=
  match r.fnReport with
  | some _ => [.toReport step k v]
  | none => r.report_all step [(k, v)]

/-! ## Order lemmas -/

theorem charLtB_asymm {a b : Char} (h : charLtB a b = true) : charLtB b a = false := by
  simp only [charLtB, decide_eq_true_eq, decide_eq_false_iff_not] at h ⊢
  omega

theorem charLtB_conn {a b : Char} (h1 : charLtB a b = false) (h2 : charLtB b a = false) :
    a = b := by
  simp only [charLtB, decide_eq_false_iff_not, Char.toNat] at h1 h2
  exact Char.eq_of_val_eq (UInt32.ext (by omega))

theorem charLtB_trans {a b c : Char} (h1 : charLtB a b = true) (h2 : charLtB b c = true) :
    charLtB a c = true := by
  simp only [charLtB, decide_eq_true_eq] at h1 h2 ⊢
  omega

theorem charListLtB_asymm :
    ∀ {as bs : List Char}, charListLtB as bs = true → charListLtB bs as = false := by
  intro as
  induction as with
  | nil =>
    intro bs h
    cases bs with
    | nil => simp [charListLtB] at h
    | cons b bs => simp [charListLtB]
  | cons a as ih =>
    intro bs h
    cases bs with
    | nil => simp [charListLtB] at h
    | cons b bs =>
      simp only [charListLtB] at h ⊢
      by_cases hab : charLtB a b = true
      · simp [hab, charLtB_asymm hab]
      · simp only [Bool.not_eq_true] at hab
        by_cases hba : charLtB b a = true
        · simp [hab, hba] at h
        · simp only [Bool.not_eq_true] at hba
          simp only [hab, hba, if_false] at h ⊢
          exact ih h

theorem charListLtB_conn :
    ∀ {as bs : List Char}, charListLtB as bs = false → charListLtB bs as = false → as = bs := by
  intro as
  induction as with
  | nil =>
    intro bs h1 _
    cases bs with
    | nil => rfl
    | cons b bs => simp [charListLtB] at h1
  | cons a as ih =>
    intro bs h1 h2
    cases bs with
    | nil => simp [charListLtB] at h2
    | cons b bs =>
      simp only [charListLtB] at h1 h2
      by_cases hab : charLtB a b = true
      · simp [hab] at h1
      · simp only [Bool.not_eq_true] at hab
        by_cases hba : charLtB b a = true
        · simp [hba] at h2
        · simp only [Bool.not_eq_true] at hba
          simp only [hab, hba, if_false] at h1 h2
          rw [charLtB_conn hab hba, ih h1 h2]

theorem charListLtB_trans :
    ∀ {as bs cs : List Char}, charListLtB as bs = true → charListLtB bs cs = true →
      charListLtB as cs = true := by
  intro as
  induction as with
  | nil =>
    intro bs cs h1 h2
    cases bs with
    | nil => simp [charListLtB] at h1
    | cons b bs =>
      cases cs with
      | nil => simp [charListLtB] at h2
      | cons c cs => simp [charListLtB]
  | cons a as ih =>
    intro bs cs h1 h2
    cases bs with
    | nil => simp [charListLtB] at h1
    | cons b bs =>
      cases cs with
      | nil => simp [charListLtB] at h2
      | cons c cs =>
        simp only [charListLtB] at h1 h2 ⊢
        by_cases hab : charLtB a b = true
        · -- a < b; compare b and c
          by_cases hbc : charLtB b c = true
          · simp [charLtB_trans hab hbc]
          · simp only [Bool.not_eq_true] at hbc
            by_cases hcb : charLtB c b = true
            · simp [hbc, hcb] at h2
            · simp only [Bool.not_eq_true] at hcb
              have : b = c := charLtB_conn hbc hcb
              subst this
              simp [hab]
        · simp only [Bool.not_eq_true] at hab
          by_cases hba : charLtB b a = true
          · simp [hab, hba] at h1
          · simp only [Bool.not_eq_true] at hba
            have : a = b := charLtB_conn hab hba
            subst this
            simp only [hab, hba, if_false] at h1 ⊢
            by_cases hbc : charLtB a c = true
            · simp [hbc]
            · simp only [Bool.not_eq_true] at hbc
              by_cases hcb : charLtB c a = true
              · simp [hbc, hcb] at h2
              · simp only [Bool.not_eq_true] at hcb
                simp only [hbc, hcb, if_false] at h2 ⊢
                exact ih h1 h2

theorem strLtB_asymm {s t : String} (h : strLtB s t = true) : strLtB t s = false :=
  charListLtB_asymm h

theorem strLtB_conn {s t : String} (h1 : strLtB s t = false) (h2 : strLtB t s = false) :
    s = t := by
  cases s with
  | mk ds =>
    cases t with
    | mk dt => exact congrArg String.mk (charListLtB_conn h1 h2)

theorem strLtB_trans {s t u : String} (h1 : strLtB s t = true) (h2 : strLtB t u = true) :
    strLtB s u = true :=
  charListLtB_trans h1 h2

theorem strLtB_irrefl (s : String) : strLtB s s = false := by
  cases h : strLtB s s
  · rfl
  · exact (charListLtB_asymm h).symm.trans h |>.symm ▸ (by simp [charListLtB_asymm h] at h ⊢)

theorem stepLe_total (a b : Metric) : stepLe a b = true ∨ stepLe b a = true := by
  simp only [stepLe, decide_eq_true_eq]
  omega

theorem stepLe_trans {a b c : Metric} (h1 : stepLe a b = true) (h2 : stepLe b c = true) :
    stepLe a c = true := by
  simp only [stepLe, decide_eq_true_eq] at h1 h2 ⊢
  omega

theorem lexLe_total (a b : Metric) : lexLe a b = true ∨ lexLe b a = true := by
  simp only [lexLe, Bool.or_eq_true, Bool.and_eq_true, decide_eq_true_eq]
  by_cases hst : strLtB a.tag b.tag = true
  · exact Or.inl (Or.inl hst)
  · simp only [Bool.not_eq_true] at hst
    by_cases hts : strLtB b.tag a.tag = true
    · exact Or.inr (Or.inl hts)
    · simp only [Bool.not_eq_true] at hts
      have heq : a.tag = b.tag := strLtB_conn hst hts
      rcases Nat.le_total a.step b.step with h | h
      · exact Or.inl (Or.inr ⟨heq, h⟩)
      · exact Or.inr (Or.inr ⟨heq.symm, h⟩)

theorem lexLe_trans {a b c : Metric} (h1 : lexLe a b = true) (h2 : lexLe b c = true) :
    lexLe a c = true := by
  simp only [lexLe, Bool.or_eq_true, Bool.and_eq_true, decide_eq_true_eq] at h1 h2 ⊢
  rcases h1 with h1 | ⟨he1, hs1⟩
  · rcases h2 with h2 | ⟨he2, _⟩
    · exact Or.inl (strLtB_trans h1 h2)
    · exact Or.inl (he2 ▸ h1)
  · rcases h2 with h2 | ⟨he2, hs2⟩
    · exact Or.inl (he1 ▸ h2)
    · exact Or.inr ⟨he1.trans he2, hs1.trans hs2⟩

/-! ## Sorting lemmas -/

theorem insertOrd_perm (le : α → α → Bool) (a : α) (l : List α) :
    List.Perm (insertOrd le a l) (a :: l) := by
  induction l with
  | nil => simp [insertOrd]
  | cons b l ih =>
    simp only [insertOrd]
    by_cases h : le a b = true
    · simp [h]
    · simp only [h, if_false]
      exact ((ih.cons b).trans (List.Perm.swap a b l))

theorem orderBy_perm (le : α → α → Bool) (l : List α) : List.Perm (orderBy le l) l := by
  induction l with
  | nil => simp [orderBy]
  | cons a l ih => exact (insertOrd_perm le a (orderBy le l)).trans (ih.cons a)

theorem mem_orderBy {le : α → α → Bool} {l : List α} {x : α} :
    x ∈ orderBy le l ↔ x ∈ l :=
  (orderBy_perm le l).mem_iff

theorem pairwise_insertOrd {le : α → α → Bool}
    (hTot : ∀ a b, le a b = true ∨ le b a = true)
    (hTrans : ∀ a b c, le a b = true → le b c = true → le a c = true)
    {a : α} {l : List α} (hl : l.Pairwise (fun x y => le x y = true)) :
    (insertOrd le a l).Pairwise (fun x y => le x y = true) := by
  induction l with
  | nil => simp [insertOrd]
  | cons b l ih =>
    rcases List.pairwise_cons.mp hl with ⟨hb, hl'⟩
    simp only [insertOrd]
    by_cases h : le a b = true
    · simp only [h, if_true]
      refine List.pairwise_cons.mpr ⟨?_, hl⟩
      intro c hc
      rcases List.mem_cons.mp hc with rfl | hc
      · exact h
      · exact hTrans a b c h (hb c hc)
    · simp only [h, if_false]
      refine List.pairwise_cons.mpr ⟨?_, ih hl'⟩
      intro c hc
      rcases List.mem_cons.mp ((insertOrd_perm le a l).mem_iff.mp hc) with hca | hc
      · rcases hTot a b with h' | h'
        · exact absurd h' h
        · rw [hca]
          exact h'
      · exact hb c hc

theorem pairwise_orderBy {le : α → α → Bool}
    (hTot : ∀ a b, le a b = true ∨ le b a = true)
    (hTrans : ∀ a b c, le a b = true → le b c = true → le a c = true)
    (l : List α) : (orderBy le l).Pairwise (fun x y => le x y = true) := by
  induction l with
  | nil => simp [orderBy]
  | cons a l ih => exact pairwise_insertOrd hTot hTrans ih

theorem filter_insertOrd_neg {le : α → α → Bool} {p : α → Bool} {a : α}
    (ha : p a = false) (l : List α) :
    (insertOrd le a l).filter p = l.filter p := by
  induction l with
  | nil => simp [insertOrd, ha]
  | cons b l ih =>
    simp only [insertOrd]
    by_cases h : le a b = true
    · simp [h, List.filter_cons, ha]
    · simp only [h, if_false]
      by_cases hb : p b = true
      · simp [List.filter_cons, hb, ih]
      · simp only [Bool.not_eq_true] at hb
        simp [List.filter_cons, hb, ih]

/-- Inserting a `p`-element into a `le1`-sorted list and restricting to the
`p`-elements is the same as inserting into the restriction under `le2`,
provided `le1` and `le2` agree on `p`-elements and no `p`-element can
follow, in `le1` order, a non-`p`-element that itself follows a
`p`-element. -/
theorem filter_insertOrd_pos {le1 le2 : α → α → Bool} {p : α → Bool}
    (hCompat : ∀ a b, p a = true → p b = true → le1 a b = le2 a b)
    (hSep : ∀ a b c, p a = true → p b = false → p c = true →
      le1 a b = true → le1 b c = false)
    {a : α} (ha : p a = true) :
    ∀ {l : List α}, l.Pairwise (fun x y => le1 x y = true) →
      (insertOrd le1 a l).filter p = insertOrd le2 a (l.filter p) := by
  intro l
  induction l with
  | nil => simp [insertOrd, ha]
  | cons b l ih =>
    intro hl
    rcases List.pairwise_cons.mp hl with ⟨hb, hl'⟩
    simp only [insertOrd]
    by_cases h : le1 a b = true
    · simp only [h, if_true]
      by_cases hpb : p b = true
      · have : le2 a b = true := (hCompat a b ha hpb) ▸ h
        simp [List.filter_cons, ha, hpb, insertOrd, this]
      · simp only [Bool.not_eq_true] at hpb
        -- no `p`-element can occur in `l`: it would follow the
        -- non-`p`-element `b`, which follows `a` in `le1` order
        have hnone : l.filter p = [] := by
          rw [List.filter_eq_nil_iff]
          intro c hc hpc
          have h1 : le1 b c = true := hb c hc
          have h2 : le1 b c = false := hSep a b c ha hpb hpc h
          rw [h1] at h2
          exact Bool.noConfusion h2
        simp [List.filter_cons, ha, hpb, hnone, insertOrd]
    · simp only [h, if_false]
      by_cases hpb : p b = true
      · have hab : le2 a b = false := (hCompat a b ha hpb) ▸ (Bool.not_eq_true _ |>.mp h)
        simp [List.filter_cons, hpb, insertOrd, hab, ih hl']
      · simp only [Bool.not_eq_true] at hpb
        simp [List.filter_cons, hpb, ih hl']

/-- Restricting a `le1`-sort to the `p`-elements is the `le2`-sort of the
restriction (under the same compatibility and separation conditions). -/
theorem filter_orderBy {le1 le2 : α → α → Bool} {p : α → Bool}
    (hTot : ∀ a b, le1 a b = true ∨ le1 b a = true)
    (hTrans : ∀ a b c, le1 a b = true → le1 b c = true → le1 a c = true)
    (hCompat : ∀ a b, p a = true → p b = true → le1 a b = le2 a b)
    (hSep : ∀ a b c, p a = true → p b = false → p c = true →
      le1 a b = true → le1 b c = false)
    (l : List α) :
    (orderBy le1 l).filter p = orderBy le2 (l.filter p) := by
  induction l with
  | nil => simp [orderBy]
  | cons a l ih =>
    simp only [orderBy]
    by_cases ha : p a = true
    · rw [filter_insertOrd_pos hCompat hSep ha (pairwise_orderBy hTot hTrans l), ih,
        List.filter_cons, ha]
      simp [orderBy]
    · simp only [Bool.not_eq_true] at ha
      rw [filter_insertOrd_neg ha, ih, List.filter_cons, ha]
      simp

/-! ## Grouping lemmas -/

theorem groupby_eq_nil_iff [DecidableEq β] (key : α → β) (l : List α) :
    groupby key l = [] ↔ l = [] := by
  cases l with
  | nil => simp [groupby]
  | cons a l =>
    simp only [groupby]
    cases h : groupby key l with
    | nil => simp
    | cons g rest =>
      obtain ⟨k0, g0⟩ := g
      by_cases hk : key a = k0 <;> simp [hk]

theorem groupby_head_key [DecidableEq β] (key : α → β) (a : α) (l : List α) :
    ∃ g rest, groupby key (a :: l) = (key a, g) :: rest := by
  simp only [groupby]
  cases h : groupby key l with
  | nil => exact ⟨[a], [], rfl⟩
  | cons g0 rest =>
    obtain ⟨k0, g⟩ := g0
    by_cases hk : key a = k0
    · exact ⟨a :: g, rest, by simp [hk]⟩
    · exact ⟨[a], (k0, g) :: rest, by simp [hk]⟩

/-- If the grouping of `l` is known, the grouping of `a :: l` either merges
`a` into the leading group (same key) or opens a fresh group in front. -/
theorem groupby_cons_eq [DecidableEq β] (key : α → β) (a : α) (l : List α)
    (k0 : β) (g : List α) (rest : List (β × List α))
    (h : groupby key l = (k0, g) :: rest) :
    groupby key (a :: l) =
      if key a = k0 then (key a, a :: g) :: rest
      else (key a, [a]) :: (k0, g) :: rest := by
  cases l with
  | nil => simp [groupby] at h
  | cons b m =>
    conv =>
      lhs
      rw [groupby]
    rw [h]

/-- Looking a key up in the consecutive grouping of a stream whose keys are
sorted (equal keys therefore contiguous) finds exactly the filtered
sub-stream for that key, and finds nothing when that sub-stream is empty. -/
theorem alookup_groupby [DecidableEq α] [DecidableEq β] (key : α → β) (lt : β → β → Bool)
    (hAsymm : ∀ x y, lt x y = true → lt y x = false) :
    ∀ (l : List α),
      l.Pairwise (fun x y => lt (key x) (key y) = true ∨ key x = key y) →
      ∀ (k : β),
        alookup k (groupby key l) =
          if l.filter (fun x => decide (key x = k)) = [] then none
          else some (l.filter (fun x => decide (key x = k))) := by
  intro l
  induction l with
  | nil => intro _ k; simp [groupby, alookup]
  | cons a l ih =>
    intro hl k
    rcases List.pairwise_cons.mp hl with ⟨ha, hl2⟩
    cases hgl : groupby key l with
    | nil =>
      have hlnil : l = [] := (groupby_eq_nil_iff key l).mp hgl
      subst hlnil
      have hsingle : groupby key [a] = [(key a, [a])] := rfl
      rw [hsingle]
      by_cases hk : key a = k
      · simp [alookup, hk, List.filter_cons]
      · have hk2 : ¬ k = key a := fun h => hk h.symm
        simp [alookup, hk, hk2, List.filter_cons]
    | cons g0 rest =>
      obtain ⟨k0, g⟩ := g0
      -- the leading group's key is the key of the head of `l`
      obtain ⟨b, m, rfl⟩ : ∃ b m, l = b :: m := by
        cases l with
        | nil => simp [groupby] at hgl
        | cons b m => exact ⟨b, m, rfl⟩
      obtain ⟨gB, restB, hbm⟩ := groupby_head_key key b m
      rw [hbm] at hgl
      simp only [List.cons.injEq, Prod.mk.injEq] at hgl
      obtain ⟨⟨hk0, hgB⟩, hrest⟩ := hgl
      subst hk0
      rw [hgB, hrest] at hbm
      -- now `hbm : groupby key (b :: m) = (key b, g) :: rest`
      have ihk := ih hl2 k
      rw [hbm] at ihk
      rw [groupby_cons_eq key a (b :: m) (key b) g rest hbm]
      by_cases hab : key a = key b
      · -- `a` merges into the leading group
        rw [if_pos hab]
        by_cases hk : k = key a
        · -- the looked-up key is the merged group's key
          have hkb : k = key b := hk.trans hab
          have hpb : (fun x => decide (key x = k)) b = true := by
            simp [hkb]
          have hfil_ne : (b :: m).filter (fun x => decide (key x = k)) ≠ [] := by
            intro hnil
            have := (List.filter_eq_nil_iff.mp hnil) b (by simp)
            simp [hkb] at this
          rw [if_neg hfil_ne] at ihk
          simp only [alookup, if_pos hkb] at ihk
          have hgeq : g = (b :: m).filter (fun x => decide (key x = k)) :=
            Option.some_inj.mp ihk
          simp only [alookup, if_pos hk]
          have hfa : (a :: b :: m).filter (fun x => decide (key x = k)) =
              a :: (b :: m).filter (fun x => decide (key x = k)) := by
            rw [List.filter_cons, if_pos (by simp [hk.symm])]
          rw [hfa, if_neg (by simp), ← hgeq]
        · -- a different key: fall through to the remaining groups
          have hkb : ¬ k = key b := fun h => hk (h.trans hab.symm)
          simp only [alookup, if_neg hk]
          simp only [alookup, if_neg hkb] at ihk
          have hfa : (a :: b :: m).filter (fun x => decide (key x = k)) =
              (b :: m).filter (fun x => decide (key x = k)) := by
            rw [List.filter_cons, if_neg (by simp; exact fun h => hk h.symm)]
          rw [hfa]
          exact ihk
      · -- `a` opens a fresh group in front
        rw [if_neg hab]
        by_cases hk : k = key a
        · -- the looked-up key is `a`'s: nothing with this key occurs later
          have hab_lt : lt (key a) (key b) = true := by
            rcases ha b (by simp) with h | h
            · exact h
            · exact absurd h hab
          have hfil : (b :: m).filter (fun x => decide (key x = k)) = [] := by
            rw [List.filter_eq_nil_iff]
            intro x hx
            simp only [decide_eq_true_eq]
            intro hkey
            rcases List.mem_cons.mp hx with rfl | hxm
            · exact hab (hk ▸ hkey.symm)
            · rcases (List.pairwise_cons.mp hl2).1 x hxm with hlt | heq
              · rw [hkey, hk] at hlt
                have hfalse := hAsymm _ _ hab_lt
                rw [hlt] at hfalse
                exact Bool.noConfusion hfalse
              · rw [hkey, hk] at heq
                exact hab heq.symm
          simp only [alookup, if_pos hk]
          have hfa : (a :: b :: m).filter (fun x => decide (key x = k)) = [a] := by
            rw [List.filter_cons, if_pos (by simp [hk.symm]), hfil]
          rw [hfa, if_neg (by simp)]
        · have hfa : (a :: b :: m).filter (fun x => decide (key x = k)) =
              (b :: m).filter (fun x => decide (key x = k)) := by
            rw [List.filter_cons, if_neg (by simp; exact fun h => hk h.symm)]
          simp only [alookup, if_neg hk]
          rw [hfa]
          exact ihk

/-! ## Auxiliary lemmas -/

theorem orderBy_eq_nil_iff {le : α → α → Bool} {l : List α} :
    orderBy le l = [] ↔ l = [] := by
  constructor
  · intro h
    have := (orderBy_perm le l).length_eq
    rw [h] at this
    exact List.length_eq_zero.mp this.symm
  · intro h
    subst h
    rfl

theorem alookup_map_snd [DecidableEq β] (f : γ → δ) (l : List (β × γ)) (k : β) :
    alookup k (l.map (fun g => (g.1, f g.2))) = (alookup k l).map f := by
  induction l with
  | nil => simp [alookup]
  | cons x l ih =>
    obtain ⟨k0, v0⟩ := x
    by_cases hk : k = k0
    · simp [alookup, hk]
    · simp [alookup, hk, ih]

theorem elemB_iff_mem [DecidableEq β] {b : β} {l : List β} :
    elemB b l = true ↔ b ∈ l := by
  induction l with
  | nil => simp [elemB]
  | cons x l ih =>
    by_cases h : b = x
    · simp [elemB, h]
    · simp [elemB, h, ih]

theorem filter_append_right_nil {p : α → Bool} {l new : List α}
    (h : ∀ r ∈ new, p r = false) :
    (l ++ new).filter p = l.filter p := by
  rw [List.filter_append]
  have hn : new.filter p = [] := List.filter_eq_nil_iff.mpr (by intro a ha; simp [h a ha])
  rw [hn, List.append_nil]

theorem pySplitlines_append_newline :
    ∀ {l : List Char}, '\n' ∉ l → pySplitlines (l ++ ['\n']) = [l] := by
  intro l
  induction l with
  | nil => intro _; rfl
  | cons c rest ih =>
    intro h
    have hc : ¬ c = '\n' := fun hc => h (hc ▸ List.mem_cons_self c rest)
    have hrest : '\n' ∉ rest := fun hr => h (List.mem_cons_of_mem c hr)
    simp only [List.cons_append, pySplitlines, if_neg hc, List.append_eq, ih hrest]

/-- On rows of a common tag, tag-then-step lexicographic order coincides
with step order. -/
theorem lexLe_compat_tag (k : String) :
    ∀ a b : Metric, decide (a.tag = k) = true → decide (b.tag = k) = true →
      lexLe a b = stepLe a b := by
  intro a b ha hb
  simp only [decide_eq_true_eq] at ha hb
  simp [lexLe, stepLe, ha, hb, strLtB_irrefl]

/-- In tag-then-step order, once the stream has moved past tag `k` to a
different tag it can never return to tag `k`. -/
theorem lexLe_sep_tag (k : String) :
    ∀ a b c : Metric, decide (a.tag = k) = true → decide (b.tag = k) = false →
      decide (c.tag = k) = true → lexLe a b = true → lexLe b c = false := by
  intro a b c ha hb hc hab
  simp only [decide_eq_true_eq, decide_eq_false_iff_not] at ha hb hc
  simp only [lexLe, Bool.or_eq_true, Bool.and_eq_true, decide_eq_true_eq] at hab
  rcases hab with hlt | ⟨heq, _⟩
  · rw [ha] at hlt
    simp only [lexLe, Bool.or_eq_false_iff, Bool.and_eq_false_iff]
    constructor
    · rw [hc]
      exact strLtB_asymm hlt
    · left
      simp only [decide_eq_false_iff_not]
      rw [hc]
      exact hb
  · exact absurd (heq ▸ ha) hb

theorem pairwise_tag_of_lexLe {l : List Metric}
    (h : l.Pairwise (fun x y => lexLe x y = true)) :
    l.Pairwise (fun x y => strLtB x.tag y.tag = true ∨ x.tag = y.tag) := by
  refine h.imp ?_
  intro a b hab
  simp only [lexLe, Bool.or_eq_true, Bool.and_eq_true, decide_eq_true_eq] at hab
  rcases hab with h | ⟨h, _⟩
  · exact Or.inl h
  · exact Or.inr h

theorem readAllPred_tag_mem {rd : SQLReader} {ks : List String} {r : Metric}
    (h : rd.readAllPred ks r = true) : r.tag ∈ ks := by
  simp only [SQLReader.readAllPred, Bool.and_eq_true] at h
  exact elemB_iff_mem.mp h.2

/-- The single characterization of `read_all` that the claims build on:
looking a key up in the result finds exactly the step-sorted records of the
scoped rows carrying that key (among the requested keys), and finds nothing
when there are none. -/
theorem read_all_alookup (rd : SQLReader) (ks : List String) (db : DB) (k : String) :
    alookup k (rd.read_all ks db) =
      if (db.filter (rd.readAllPred ks)).filter (fun r => decide (r.tag = k)) = [] then
        none
      else
        some ((orderBy stepLe
          ((db.filter (rd.readAllPred ks)).filter (fun r => decide (r.tag = k)))).map toRec) := by
  unfold SQLReader.read_all
  rw [alookup_map_snd (f := SQLReader.valuesOf)]
  rw [alookup_groupby Metric.tag strLtB (fun x y h => strLtB_asymm h)
    (orderBy lexLe (db.filter (rd.readAllPred ks)))
    (pairwise_tag_of_lexLe (pairwise_orderBy lexLe_total (fun a b c => lexLe_trans) _)) k]
  rw [filter_orderBy lexLe_total (fun a b c => lexLe_trans) (lexLe_compat_tag k)
    (lexLe_sep_tag k)]
  by_cases hnil : (db.filter (rd.readAllPred ks)).filter (fun r => decide (r.tag = k)) = []
  · rw [if_pos (by rw [hnil]; rfl), if_pos hnil]
    rfl
  · rw [if_neg (fun hcon => hnil (orderBy_eq_nil_iff.mp hcon)), if_neg hnil]
    rfl

/-- For a requested key, the rows that `read_all` groups under it are
exactly the rows that `read` selects. -/
theorem filter_readAll_tag (rd : SQLReader) (ks : List String) (db : DB) (k : String)
    (hk : k ∈ ks) :
    (db.filter (rd.readAllPred ks)).filter (fun r => decide (r.tag = k)) =
      db.filter (rd.readPred k) := by
  rw [List.filter_filter]
  apply List.filter_congr
  intro r _
  simp only [SQLReader.readAllPred, SQLReader.readPred, Bool.and_assoc]
  by_cases hs : rd.inScope r = true
  · simp only [hs, Bool.true_and]
    by_cases ht : r.tag = k
    · simp [ht, elemB_iff_mem.mpr hk]
    · simp [ht]
  · simp only [Bool.not_eq_true] at hs
    simp [hs]

/-! ## Concrete fixtures used by witnesses -/

/-- A live engine (its SQLite file exists). -/
def sampleEngine : Engine := ⟨"sqlite:///tmp/metrics.db", true⟩

/-- An engine whose SQLite file does not exist. -/
def missingEngine : Engine := ⟨"sqlite:///tmp/absent.db", false⟩

def sampleExperiment : Experiment := ⟨1, "lr: 0.1"⟩

def sampleReporter : SQLReporter := ⟨sampleEngine, sampleExperiment, 1⟩

def sampleReader : SQLReader := ⟨sampleEngine, sampleExperiment, 1⟩

/-- Rows of experiment 1 / run 1; tag `a` is reported out of step order. -/
def sampleDB : DB := [⟨1, 1, 5, "a", 50⟩, ⟨1, 1, 2, "a", 20⟩, ⟨1, 1, 0, "b", 1⟩]

/-- A concrete line codec standing in for the external JSON codec. -/
def sampleDec (l : List Char) : Except String SeriesPoint :=
  if l = ['3', ',', '7'] then .ok ⟨3, 7⟩ else .error "bad line"

/-- The matching concrete line encoder. -/
def sampleEnc (p : SeriesPoint) : List Char :=
  if p.step = 3 ∧ p.value = 7 then ['3', ',', '7'] else ['?']

/-! ## Claims -/

/-- C2: reading a `MetricKey` that was never written returns an empty list
and no error, for the file backend (`FSReader.read` recovers the missing
file locally) and the relational backend (`SQLReader.read` of a tag with no
matching rows). -/
theorem C2_unknown_key_reads_empty :
    (∀ (dec : List Char → Except String SeriesPoint) (store : FileStore) (k : String),
        alookup (jsonl_path k) store = none → FSReader.read dec store k = .ok [])
    ∧ (∀ (rd : SQLReader) (db : DB) (k : String),
        (∀ r ∈ db, rd.readPred k r = false) → rd.read k db = []) := by
  constructor
  · intro dec store k h
    unfold FSReader.read
    rw [h]
  · intro rd db k h
    unfold SQLReader.read
    rw [List.filter_eq_nil_iff.mpr (by intro r hr; simp [h r hr])]
    rfl

/-- Witness for C2 at concrete inputs: an empty file store and a tag absent
from the sample database. -/
theorem C2_witness :
    FSReader.read sampleDec [] "loss" = .ok [] ∧
      sampleReader.read "missing" sampleDB = [] :=
  ⟨C2_unknown_key_reads_empty.1 sampleDec [] "loss" rfl,
   C2_unknown_key_reads_empty.2 sampleReader sampleDB "missing" (by decide)⟩

/-- C3: `read_all` selects the scoped rows with requested tags ordered by
tag then step and groups the sorted stream in one consecutive-grouping
pass, so a requested key with no matching rows is absent from the result
mapping, and a key present in the result maps to exactly the step-sorted
`{step, value}` records of its scoped rows. -/
theorem C3_read_all_grouping :
    (∀ (rd : SQLReader) (ks : List String) (db : DB) (k : String),
        k ∈ ks → db.filter (rd.readPred k) = [] →
          alookup k (rd.read_all ks db) = none)
    ∧ (∀ (rd : SQLReader) (ks : List String) (db : DB) (k : String)
        (s : List SeriesPoint),
        alookup k (rd.read_all ks db) = some s →
          k ∈ ks ∧ s = (orderBy stepLe (db.filter (rd.readPred k))).map toRec) := by
  constructor
  · intro rd ks db k hk hnone
    rw [read_all_alookup, if_pos (by rw [filter_readAll_tag rd ks db k hk, hnone])]
  · intro rd ks db k s hs
    rw [read_all_alookup] at hs
    by_cases hnil : (db.filter (rd.readAllPred ks)).filter (fun r => decide (r.tag = k)) = []
    · rw [if_pos hnil] at hs
      exact Option.noConfusion hs
    · rw [if_neg hnil] at hs
      have hkks : k ∈ ks := by
        have hx : ¬ ∀ r ∈ db.filter (rd.readAllPred ks),
            ¬ (fun r => decide (r.tag = k)) r = true :=
          fun hall => hnil (List.filter_eq_nil_iff.mpr hall)
        push_neg at hx
        obtain ⟨r, hrmem, hrtag⟩ := hx
        have htag : r.tag = k := by simpa using hrtag
        have hpred := (List.mem_filter.mp hrmem).2
        exact htag ▸ readAllPred_tag_mem hpred
      refine ⟨hkks, ?_⟩
      have := Option.some_inj.mp hs
      rw [← this, filter_readAll_tag rd ks db k hkks]

/-- Witness for C3 at concrete inputs: requested key `missing` has no rows
and is absent; requested key `a` maps to its step-sorted records. -/
theorem C3_witness :
    alookup "missing" (sampleReader.read_all ["a", "missing"] sampleDB) = none ∧
      ("a" ∈ ["a", "missing"] ∧
        ([⟨2, 20⟩, ⟨5, 50⟩] : List SeriesPoint) =
          (orderBy stepLe (sampleDB.filter (sampleReader.readPred "a"))).map toRec) :=
  ⟨C3_read_all_grouping.1 sampleReader ["a", "missing"] sampleDB "missing"
      (by decide) (by decide),
   C3_read_all_grouping.2 sampleReader ["a", "missing"] sampleDB "a"
      [⟨2, 20⟩, ⟨5, 50⟩] (by decide)⟩

/-- C4: for the relational backend, series returned by `read` and by
`read_all` (per key) are ordered by ascending step, for every insertion
order of the reports. -/
theorem C4_series_step_ascending :
    (∀ (rd : SQLReader) (k : String) (db : DB),
        (rd.read k db).Pairwise (fun p q => p.step ≤ q.step))
    ∧ (∀ (rd : SQLReader) (ks : List String) (db : DB) (k : String)
        (s : List SeriesPoint),
        alookup k (rd.read_all ks db) = some s →
          s.Pairwise (fun p q => p.step ≤ q.step)) := by
  have hsorted : ∀ (l : List Metric),
      ((orderBy stepLe l).map toRec).Pairwise (fun p q => p.step ≤ q.step) := by
    intro l
    refine List.Pairwise.map toRec ?_ (pairwise_orderBy stepLe_total
      (fun a b c => stepLe_trans) l)
    intro a b hab
    simpa [stepLe] using hab
  constructor
  · intro rd k db
    exact hsorted _
  · intro rd ks db k s hs
    rw [read_all_alookup] at hs
    by_cases hnil : (db.filter (rd.readAllPred ks)).filter (fun r => decide (r.tag = k)) = []
    · rw [if_pos hnil] at hs
      exact Option.noConfusion hs
    · rw [if_neg hnil] at hs
      rw [← Option.some_inj.mp hs]
      exact hsorted _

/-- Witness for C4 at concrete inputs: tag `a` was reported at step 5 and
then step 2; both read paths return the series step-ascending. -/
theorem C4_witness :
    (sampleReader.read "a" sampleDB).Pairwise (fun p q => p.step ≤ q.step) ∧
      ([⟨2, 20⟩, ⟨5, 50⟩] : List SeriesPoint).Pairwise (fun p q => p.step ≤ q.step) :=
  ⟨C4_series_step_ascending.1 sampleReader "a" sampleDB,
   C4_series_step_ascending.2 sampleReader ["a"] sampleDB "a" [⟨2, 20⟩, ⟨5, 50⟩]
     (by decide)⟩

/-- C5: every key present in a `read_all` result maps to exactly the series
that `read` returns for it on the same stored state. -/
theorem C5_read_all_agrees_with_read :
    ∀ (rd : SQLReader) (ks : List String) (db : DB) (k : String)
      (s : List SeriesPoint),
      alookup k (rd.read_all ks db) = some s → s = rd.read k db := by
  intro rd ks db k s hs
  rw [read_all_alookup] at hs
  by_cases hnil : (db.filter (rd.readAllPred ks)).filter (fun r => decide (r.tag = k)) = []
  · rw [if_pos hnil] at hs
    exact Option.noConfusion hs
  · rw [if_neg hnil] at hs
    have hkks : k ∈ ks := by
      have hx : ¬ ∀ r ∈ db.filter (rd.readAllPred ks),
          ¬ (fun r => decide (r.tag = k)) r = true :=
        fun hall => hnil (List.filter_eq_nil_iff.mpr hall)
      push_neg at hx
      obtain ⟨r, hrmem, hrtag⟩ := hx
      have htag : r.tag = k := by simpa using hrtag
      exact htag ▸ readAllPred_tag_mem (List.mem_filter.mp hrmem).2
    rw [← Option.some_inj.mp hs, filter_readAll_tag rd ks db k hkks]
    rfl

/-- Witness for C5 at concrete inputs: the series `read_all` maps `a` to is
the series `read "a"` returns. -/
theorem C5_witness :
    ([⟨2, 20⟩, ⟨5, 50⟩] : List SeriesPoint) = sampleReader.read "a" sampleDB :=
  C5_read_all_agrees_with_read sampleReader ["a", "missing"] sampleDB "a"
    [⟨2, 20⟩, ⟨5, 50⟩] (by decide)

/-- A reader scoped to a different experiment (id 2) on the same engine. -/
def otherReader : SQLReader := ⟨sampleEngine, ⟨2, "other"⟩, 1⟩

/-- C6: every metric row written by a `SQLReporter` is stamped with its
experiment id and run id; every reader query filters on its own scope, so
points written under one `(experiment, run)` pair are visible to a reader
with the same pair and invisible to readers scoped differently. -/
theorem C6_scope_isolation :
    ∀ (rp : SQLReporter) (s : Nat) (m : List (String × Int)) (db : DB),
      (∀ r ∈ m.map (fun kv => rp.metricOf s kv.1 kv.2),
          r.experiment_id = rp.experiment.id ∧ r.run_id = rp.run_id)
      ∧ (∀ rd : SQLReader,
          rd.experiment.id = rp.experiment.id → rd.run_id = rp.run_id →
          ∀ kv ∈ m,
            (⟨s, kv.2⟩ : SeriesPoint) ∈ rd.read kv.1 (rp.report_all s m db))
      ∧ (∀ rd : SQLReader,
          ¬ (rd.experiment.id = rp.experiment.id ∧ rd.run_id = rp.run_id) →
          (∀ k, rd.read k (rp.report_all s m db) = rd.read k db)
          ∧ rd.keys (rp.report_all s m db) = rd.keys db
          ∧ (∀ ks, rd.read_all ks (rp.report_all s m db) = rd.read_all ks db)) := by
  intro rp s m db
  refine ⟨?_, ?_, ?_⟩
  · intro r hr
    obtain ⟨kv, _, rfl⟩ := List.mem_map.mp hr
    exact ⟨rfl, rfl⟩
  · intro rd he hr kv hkv
    have hrow : rp.metricOf s kv.1 kv.2 ∈ rp.report_all s m db := by
      unfold SQLReporter.report_all
      exact List.mem_append_right db (List.mem_map.mpr ⟨kv, hkv, rfl⟩)
    have hpred : rd.readPred kv.1 (rp.metricOf s kv.1 kv.2) = true := by
      simp [SQLReader.readPred, SQLReader.inScope, SQLReporter.metricOf, he, hr]
    have hmemf : rp.metricOf s kv.1 kv.2 ∈
        (rp.report_all s m db).filter (rd.readPred kv.1) :=
      List.mem_filter.mpr ⟨hrow, hpred⟩
    unfold SQLReader.read
    exact List.mem_map.mpr ⟨rp.metricOf s kv.1 kv.2, mem_orderBy.mpr hmemf, rfl⟩
  · intro rd hne
    have hscope : ∀ r ∈ m.map (fun kv => rp.metricOf s kv.1 kv.2),
        rd.inScope r = false := by
      intro r hr
      obtain ⟨kv, _, rfl⟩ := List.mem_map.mp hr
      simp only [SQLReader.inScope, SQLReporter.metricOf, Bool.and_eq_false_iff,
        decide_eq_false_iff_not]
      by_cases hex : rp.experiment.id = rd.experiment.id
      · right
        intro hrun
        exact hne ⟨hex.symm, hrun.symm⟩
      · left
        exact hex
    refine ⟨?_, ?_, ?_⟩
    · intro k
      unfold SQLReader.read SQLReporter.report_all
      rw [filter_append_right_nil (by
        intro r hr
        simp [SQLReader.readPred, hscope r hr])]
    · unfold SQLReader.keys SQLReporter.report_all
      rw [filter_append_right_nil (by intro r hr; exact hscope r hr)]
    · intro ks
      unfold SQLReader.read_all SQLReporter.report_all
      rw [filter_append_right_nil (by
        intro r hr
        simp [SQLReader.readAllPred, hscope r hr])]

/-- Witness for C6 at concrete inputs: a batch written under
`(experiment 1, run 1)` is seen by the same-scope reader and leaves an
experiment-2 reader's view unchanged. -/
theorem C6_witness :
    ((⟨0, 3⟩ : SeriesPoint) ∈
        sampleReader.read "c" (sampleReporter.report_all 0 [("c", 3)] sampleDB))
    ∧ otherReader.read "c" (sampleReporter.report_all 0 [("c", 3)] sampleDB) =
        otherReader.read "c" sampleDB :=
  ⟨(C6_scope_isolation sampleReporter 0 [("c", 3)] sampleDB).2.1 sampleReader
      rfl rfl ("c", 3) (by decide),
   ((C6_scope_isolation sampleReporter 0 [("c", 3)] sampleDB).2.2 otherReader
      (by decide)).1 "c"⟩

/-- C7: constructing a `LambdaReporter` with both write functions `None`
raises a configuration error; constructed with only `report_all` supplied,
`report(step, k, v)` delegates to `report_all` with the single-entry
mapping `{k: v}`. -/
theorem C7_lambda_reporter_config (F G H : Type) (close : Option H) :
    ((LambdaReporter.init (none : Option F) (none : Option G) close :
        Except String (LambdaReporter F G H)) =
      .error "Must supply one of `report` and `report_all` to `LambdaReporter`.")
    ∧ ∀ (g : G) (step : Nat) (k : String) (v : Int),
        (LambdaReporter.init (none : Option F) (some g) close =
          .ok (⟨none, some g, close⟩ : LambdaReporter F G H))
        ∧ LambdaReporter.report (⟨none, some g, close⟩ : LambdaReporter F G H)
            step k v = [LCall.toReportAll step [(k, v)]] := by
  refine ⟨rfl, ?_⟩
  intro g step k v
  exact ⟨rfl, rfl⟩

/-- C8: constructing a `SQLReporter` or `SQLReader` against an engine whose
store file does not exist fails with the configuration error immediately at
construction, before any read or write (both constructors are pure checks of
the engine and never touch, let alone create, the store). -/
theorem C8_missing_store_construction_fails :
    ∀ (eng : Engine) (ex : Experiment) (rid : Nat) (skArg : Option String),
      eng.fileExists = false →
        SQLReporter.init eng ex rid =
          .error (eng.url ++
            " doesn't exist! Create the database before creating a reporter.")
        ∧ SQLReader.init eng ex rid skArg =
          .error (eng.url ++
            " doesn't exist! Create the database before creating a reader.") := by
  intro eng ex rid skArg h
  constructor
  · simp [SQLReporter.init, sqlite_file_exists, h]
  · simp [SQLReader.init, sqlite_file_exists, h]

/-- Witness for C8 at a concrete engine with a missing store file. -/
theorem C8_witness :
    SQLReporter.init missingEngine sampleExperiment 1 =
      .error (missingEngine.url ++
        " doesn't exist! Create the database before creating a reporter.")
    ∧ SQLReader.init missingEngine sampleExperiment 1 none =
      .error (missingEngine.url ++
        " doesn't exist! Create the database before creating a reader.") :=
  C8_missing_store_construction_fails missingEngine sampleExperiment 1 none rfl

/-- C9: the `step_key` constructor argument of `SQLReader` has no effect:
any two values of it produce equal construction results, and successfully
constructed readers answer `keys`, `read` and `read_all` identically. -/
theorem C9_step_key_no_effect :
    ∀ (eng : Engine) (ex : Experiment) (rid : Nat) (sk1 sk2 : Option String),
      SQLReader.init eng ex rid sk1 = SQLReader.init eng ex rid sk2
      ∧ (∀ rd1 rd2 : SQLReader,
          SQLReader.init eng ex rid sk1 = .ok rd1 →
          SQLReader.init eng ex rid sk2 = .ok rd2 →
          (∀ db, rd1.keys db = rd2.keys db)
          ∧ (∀ k db, rd1.read k db = rd2.read k db)
          ∧ (∀ ks db, rd1.read_all ks db = rd2.read_all ks db)) := by
  intro eng ex rid sk1 sk2
  have hinit : SQLReader.init eng ex rid sk1 = SQLReader.init eng ex rid sk2 := by
    by_cases h : sqlite_file_exists eng <;> simp [SQLReader.init, h]
  refine ⟨hinit, ?_⟩
  intro rd1 rd2 h1 h2
  have : rd1 = rd2 := by
    rw [hinit] at h1
    rw [h1] at h2
    exact Except.ok.inj h2
  subst this
  exact ⟨fun _ => rfl, fun _ _ => rfl, fun _ _ => rfl⟩

/-- Witness for C9 at concrete inputs: `step_key` of `none` versus
`some "timestep"`. -/
theorem C9_witness :
    (SQLReader.init sampleEngine sampleExperiment 1 none =
      SQLReader.init sampleEngine sampleExperiment 1 (some "timestep"))
    ∧ sampleReader.read "a" sampleDB = sampleReader.read "a" sampleDB :=
  ⟨(C9_step_key_no_effect sampleEngine sampleExperiment 1 none (some "timestep")).1,
   ((C9_step_key_no_effect sampleEngine sampleExperiment 1 none
        (some "timestep")).2 sampleReader sampleReader rfl rfl).2.1 "a" sampleDB⟩

/-- C10: `FSReader.read` of a key whose series file exists with empty
content returns the empty list rather than a decode error (zero lines means
zero records), and a single trailing line terminator produces no extra
empty record and no decode failure. -/
theorem C10_empty_file_reads_empty :
    ∀ (dec : List Char → Except String SeriesPoint) (store : FileStore)
      (k : String) (l : List Char) (p : SeriesPoint),
      (alookup (jsonl_path k) store = some [] → FSReader.read dec store k = .ok [])
      ∧ (alookup (jsonl_path k) store = some (l ++ ['\n']) → '\n' ∉ l →
          dec l = .ok p → FSReader.read dec store k = .ok [p]) := by
  intro dec store k l p
  constructor
  · intro h
    unfold FSReader.read
    rw [h]
    rfl
  · intro h hnl hdec
    unfold FSReader.read
    rw [h]
    show decodeLines dec (pySplitlines (l ++ ['\n'])) = Except.ok [p]
    rw [pySplitlines_append_newline hnl]
    simp [decodeLines, hdec]

/-- Witness for C10 at concrete inputs: an empty `a.jsonl`, and an
`a.jsonl` holding one record line terminated by a newline. -/
theorem C10_witness :
    FSReader.read sampleDec [("a.jsonl", [])] "a" = .ok []
    ∧ FSReader.read sampleDec [("a.jsonl", ['3', ',', '7', '\n'])] "a" =
        .ok [⟨3, 7⟩] :=
  ⟨(C10_empty_file_reads_empty sampleDec [("a.jsonl", [])] "a" [] ⟨3, 7⟩).1 rfl,
   (C10_empty_file_reads_empty sampleDec [("a.jsonl", ['3', ',', '7', '\n'])] "a"
      ['3', ',', '7'] ⟨3, 7⟩).2 rfl (by decide) rfl⟩

/-- C1 as stated is false for the memory backend: `MemoryReporter` stores
only values (its `report_all` ignores the step), so reporting `{a: 2}` at
step 1 into a fresh store and reading back yields a series whose only point
carries implicit step 0, not the record `{step: 1, value: 2}`. -/
theorem C1_counterexample_memory_step_not_recorded :
    ¬ (memSeries (MemoryReporter.report_all 1 [("a", 2)] []) "a").count ⟨1, 2⟩ = 1 := by
  decide

/-- C1 (amended): reporting `{t: v}` at step `s` through `report_all` into
an empty store and immediately reading `t` yields `{step: s, value: v}`
exactly once for the file backend (for any line codec that round-trips the
record on a newline-free line) and the relational backend; for the memory
backend the value `v` is recorded exactly once, but at the implicit step 0
(its append position) rather than at `s`. -/
theorem C1_amended_report_then_read_exactly_once :
    (∀ (t : String) (v : Int) (s : Nat),
        MemoryReader.read (MemoryReporter.report_all s [(t, v)] []) t = [v]
        ∧ (memSeries (MemoryReporter.report_all s [(t, v)] []) t).count ⟨0, v⟩ = 1)
    ∧ (∀ (enc : SeriesPoint → List Char) (dec : List Char → Except String SeriesPoint)
        (t : String) (v : Int) (s : Nat),
        dec (enc ⟨s, v⟩) = .ok ⟨s, v⟩ → '\n' ∉ enc ⟨s, v⟩ →
          ∃ out, FSReader.read dec (FSReporter.report_all enc s [(t, v)] []) t = .ok out
            ∧ out.count ⟨s, v⟩ = 1)
    ∧ (∀ (rp : SQLReporter) (t : String) (v : Int) (s : Nat),
        rp.engine.fileExists = true →
          ∃ rd, rp.reader = .ok rd
            ∧ (rd.read t (rp.report_all s [(t, v)] [])).count ⟨s, v⟩ = 1) := by
  refine ⟨?_, ?_, ?_⟩
  · intro t v s
    have hstore : MemoryReporter.report_all s [(t, v)] [] = [(t, [v])] := rfl
    constructor
    · rw [hstore]
      simp [MemoryReader.read, alookup]
    · rw [hstore]
      simp [memSeries, MemoryReader.read, alookup, List.count_cons]
  · intro enc dec t v s hdec hnl
    refine ⟨[⟨s, v⟩], ?_, by simp [List.count_cons]⟩
    have hstore : FSReporter.report_all enc s [(t, v)] [] =
        [(jsonl_path t, enc ⟨s, v⟩ ++ ['\n'])] := rfl
    rw [hstore]
    unfold FSReader.read
    have hlook : alookup (jsonl_path t) [(jsonl_path t, enc ⟨s, v⟩ ++ ['\n'])] =
        some (enc ⟨s, v⟩ ++ ['\n']) := by
      simp [alookup]
    rw [hlook]
    show decodeLines dec (pySplitlines (enc ⟨s, v⟩ ++ ['\n'])) = Except.ok [⟨s, v⟩]
    rw [pySplitlines_append_newline hnl]
    simp [decodeLines, hdec]
  · intro rp t v s h
    refine ⟨⟨rp.engine, rp.experiment, rp.run_id⟩, ?_, ?_⟩
    · unfold SQLReporter.reader SQLReader.init
      rw [if_neg (by simp [sqlite_file_exists, h])]
    · unfold SQLReader.read SQLReporter.report_all
      simp [SQLReader.readPred, SQLReader.inScope, SQLReporter.metricOf,
        orderBy, insertOrd, toRec, List.count_cons]

/-- Witness for the amended C1 at concrete inputs, using the sample line
codec for the file backend and the sample engine for the relational one. -/
theorem C1_amended_witness :
    (MemoryReader.read (MemoryReporter.report_all 3 [("loss", 9)] []) "loss" =
        [(9 : Int)]
      ∧ (memSeries (MemoryReporter.report_all 3 [("loss", 9)] []) "loss").count
          ⟨0, 9⟩ = 1)
    ∧ (∃ out,
        FSReader.read sampleDec (FSReporter.report_all sampleEnc 3 [("loss", 7)] [])
          "loss" = .ok out ∧ out.count ⟨3, 7⟩ = 1)
    ∧ (∃ rd, sampleReporter.reader = .ok rd
        ∧ (rd.read "loss" (sampleReporter.report_all 3 [("loss", 7)] [])).count
            ⟨3, 7⟩ = 1) :=
  ⟨C1_amended_report_then_read_exactly_once.1 "loss" 9 3,
   C1_amended_report_then_read_exactly_once.2.1 sampleEnc sampleDec "loss" 7 3
     rfl (by decide),
   C1_amended_report_then_read_exactly_once.2.2 sampleReporter "loss" 7 3 rfl⟩
end UvMetrics
